import Mathlib

/-!
Verification development for the compiler front-end (scope resolution and
CFG lowering) of the cannoli repository.

The AST types follow the parser grammar; the scope resolver and the
lowering functions are translated from `src/compiler/util.rs` and
`src/compiler/mod.rs`.  Rust's `HashSet`/`HashMap` are rendered as
insertion-ordered duplicate-free lists and association lists: the
element/key sets coincide with the Rust ones, only iteration order is
fixed (the source's iteration order is itself unspecified).  Rust
`unimplemented!`/`panic!`/`unreachable!` aborts are rendered as a
structured `Unsupported` error in the `Except` monad.
-/

namespace Cannoli

/-- Binary operators carried by `BinOp` nodes (parser `Operator`). -/
inductive Operator
  | Add
  | Sub
  | Mult
  | Div
deriving DecidableEq

/-- Expressions of the parser AST (`parser::ast::Expression`), restricted to
the variants the compiler sources match on, plus `Subscript` as a
representative of the remaining catch-all variants. -/
inductive Expression
  | BinOp (left : Expression) (op : Operator) (right : Expression)
  | Num (n : Int)
  | Name (id : String)
  | Attribute (value : Expression) (attr : String)
  | Subscript (value : Expression) (ndx : Expression)
  | List (elts : List Expression)
  | Tuple (elts : List Expression)

/-- A positional parameter (`parser::ast::Arg::Arg { arg, .. }`). -/
inductive Arg
  | Arg (arg : String)

/-- An import alias (`parser::ast::Alias::Alias { name, asname }`). -/
inductive Alias
  | Alias (name : String) (asname : Option String)

/-- Function parameter lists (`parser::ast::Arguments`). -/
inductive Arguments
  | Arguments (args : List Arg) (vararg : Option String) (kwonlyargs : List Arg)
      (kw_defaults : List Expression) (kwarg : Option String)
      (defaults : List Expression)

/-- Statements of the parser AST (`parser::ast::Statement`), restricted to
the variants the compiler sources match on, plus `Return` as a
representative of the remaining catch-all variants. -/
inductive Statement
  | FunctionDef (name : String) (args : Arguments) (body : List Statement)
  | ClassDef (name : String) (body : List Statement)
  | Assign (targets : List Expression) (value : Expression)
  | For (target : Expression) (iter : Expression) (body : List Statement)
      (orelse : List Statement)
  | While (test : Expression) (body : List Statement) (orelse : List Statement)
  | If (test : Expression) (body : List Statement) (orelse : List Statement)
  | Import (names : List Alias)
  | ImportFrom
  | Expr (value : Expression)
  | Return (value : Option Expression)

/-- A module AST (`parser::ast::Ast::Module { body }`). -/
inductive Ast
  | Module (body : List Statement)

/-- Modelled from the spec: error kinds of `compiler::errors::CompilerError`
(the errors module is not under src/).  `IOError` and `NameError` are the
structured kinds the spec lists; `Unsupported` renders the spec's implicit
"unsupported construct" process abort (`unimplemented!`/`panic!`) as a
structured failure so that aborting executions are representable. -/
inductive CompilerError
  | IOError (msg : String)
  | NameError (id : String)
  | Unsupported (msg : String)
deriving DecidableEq

/-- `HashSet::insert`: add `x` to the set unless already present.  The
insertion-ordered list representation keeps the same element set. -/
def insertNew (s : List String) (x : String) : List String :=
  if x ∈ s then s else s ++ [x]

mutual

/-- `unpack_assign_targets` (util.rs:212): a plain name binds directly, a
list target is unsupported (`unimplemented!`), a tuple unpacks element-wise,
anything else is ignored.  The element-wise loop (also used for the
`Assign` targets loop in `rec_gather_scope`) is split off as
`unpack_assign_targets_elts`. -/
def unpack_assign_targets (scope : List String) (target : Expression) :
    Except CompilerError (List String) :=
  match target with
  | .Name id => .ok (insertNew scope id)
  | .List _ => .error (.Unsupported "list assignment target")
  | .Tuple elts => unpack_assign_targets_elts scope elts
  | _ => .ok scope

/-- Folds `unpack_assign_targets` over a list of target expressions,
propagating the first error, as the `for` loops over targets do. -/
def unpack_assign_targets_elts (scope : List String) (elts : List Expression) :
    Except CompilerError (List String) :=
  match elts with
  | [] => .ok scope
  | e :: rest =>
    match unpack_assign_targets scope e with
    | .ok s2 => unpack_assign_targets_elts s2 rest
    | .error err => .error err

end

mutual

/-- `unpack_assign_alias` (util.rs:233): binds `attr` for assignment targets
of shape `<alias>.<attr>`; list targets are unsupported; tuples unpack
element-wise; anything else is ignored. -/
def unpack_assign_alias (scope : List String) (target : Expression)
    (als : String) : Except CompilerError (List String) :=
  match target with
  | .Attribute value attr =>
    match value with
    | .Name id => if id = als then .ok (insertNew scope attr) else .ok scope
    | _ => .ok scope
  | .List _ => .error (.Unsupported "list assignment target")
  | .Tuple elts => unpack_assign_alias_elts scope elts als
  | _ => .ok scope

/-- Folds `unpack_assign_alias` over a list of target expressions,
propagating the first error. -/
def unpack_assign_alias_elts (scope : List String) (elts : List Expression)
    (als : String) : Except CompilerError (List String) :=
  match elts with
  | [] => .ok scope
  | e :: rest =>
    match unpack_assign_alias scope e als with
    | .ok s2 => unpack_assign_alias_elts s2 rest als
    | .error err => .error err

end

mutual

/-- `rec_gather_class_init` (util.rs:184): scans a statement list for
assignments through the self alias, recursing through `for`/`while`/`if`
bodies and else-branches; everything else is ignored. -/
def rec_gather_class_init (scope : List String) (stmts : List Statement)
    (self_alias : String) : Except CompilerError (List String) :=
  match stmts with
  | [] => .ok scope
  | stmt :: rest =>
    match rec_gather_class_init_stmt scope stmt self_alias with
    | .ok s2 => rec_gather_class_init s2 rest self_alias
    | .error err => .error err

/-- One iteration of the `rec_gather_class_init` statement loop. -/
def rec_gather_class_init_stmt (scope : List String) (stmt : Statement)
    (self_alias : String) : Except CompilerError (List String) :=
  match stmt with
  | .Assign targets _ => unpack_assign_alias_elts scope targets self_alias
  | .For _ _ body orelse =>
    match rec_gather_class_init scope body self_alias with
    | .ok s2 => rec_gather_class_init s2 orelse self_alias
    | .error err => .error err
  | .While _ body orelse =>
    match rec_gather_class_init scope body self_alias with
    | .ok s2 => rec_gather_class_init s2 orelse self_alias
    | .error err => .error err
  | .If _ body orelse =>
    match rec_gather_class_init scope body self_alias with
    | .ok s2 => rec_gather_class_init s2 orelse self_alias
    | .error err => .error err
  | _ => .ok scope

end

/-- `gather_class_init` (util.rs:156): called on `__init__` methods only
(the source `panic!`s otherwise, rendered as `Unsupported`); takes the first
parameter as the self alias, or skips gathering when the parameter list is
empty. -/
def gather_class_init (scope : List String) (func : Statement) :
    Except CompilerError (List String) :=
  match func with
  | .FunctionDef name args body =>
    if name ≠ "__init__" then
      .error (.Unsupported "gather_class_init may only be called on init")
    else
      match args with
      | .Arguments args _ _ _ _ _ =>
        match args with
        | .Arg arg :: _ => rec_gather_class_init scope body arg
        | [] => .ok scope
  | _ => .error (.Unsupported "unreachable: gather_class_init on non-FunctionDef")

/-- The `Import` arm of `rec_gather_scope` (util.rs:80): binds each
imported name, using its alias if present, otherwise the original name. -/
def gather_import_names (scope : List String) (names : List Alias) :
    List String :=
  match names with
  | [] => scope
  | .Alias name asname :: rest =>
    let als := match asname with
      | some a => a
      | none => name
    gather_import_names (insertNew scope als) rest

mutual

/-- `rec_gather_scope` (util.rs:48): recursively collects identifiers bound
by a statement list into the running scope set, with `ImportFrom` and list
targets unsupported. -/
def rec_gather_scope (scope : List String) (stmts : List Statement)
    (is_class : Bool) : Except CompilerError (List String) :=
  match stmts with
  | [] => .ok scope
  | stmt :: rest =>
    match rec_gather_scope_stmt scope stmt is_class with
    | .ok s2 => rec_gather_scope s2 rest is_class
    | .error err => .error err

/-- One iteration of the `rec_gather_scope` statement loop. -/
def rec_gather_scope_stmt (scope : List String) (stmt : Statement)
    (is_class : Bool) : Except CompilerError (List String) :=
  match stmt with
  | .FunctionDef name args body =>
    let s2 := insertNew scope name
    if is_class && name == "__init__" then
      gather_class_init s2 (.FunctionDef name args body)
    else
      .ok s2
  | .ClassDef name _ => .ok (insertNew scope name)
  | .Assign targets _ => unpack_assign_targets_elts scope targets
  | .For target _ body orelse =>
    match unpack_assign_targets scope target with
    | .ok s2 =>
      match rec_gather_scope s2 body is_class with
      | .ok s3 => rec_gather_scope s3 orelse is_class
      | .error err => .error err
    | .error err => .error err
  | .While _ body orelse =>
    match rec_gather_scope scope body is_class with
    | .ok s2 => rec_gather_scope s2 orelse is_class
    | .error err => .error err
  | .If _ body orelse =>
    match rec_gather_scope scope body is_class with
    | .ok s2 => rec_gather_scope s2 orelse is_class
    | .error err => .error err
  | .Import names => .ok (gather_import_names scope names)
  | .ImportFrom => .error (.Unsupported "import from")
  | _ => .ok scope

end

/-- `gather_scope` (util.rs:31): gathers the bound-identifier set and zips
it with the contiguous index range `[start_ndx, start_ndx + count)`,
producing the scope mapping as an association list. -/
def gather_scope (stmts : List Statement) (start_ndx : Nat) (is_class : Bool) :
    Except CompilerError (List (String × Nat)) :=
  match rec_gather_scope [] stmts is_class with
  | .ok scope_set => .ok (scope_set.zip (List.range' start_ndx scope_set.length))
  | .error err => .error err

/-- The loop body of `lookup_value` (util.rs:260): scan the reversed scope
stack; the original index of the table at the head of the reversed list is
the length of its tail. -/
def lookup_rev (tbls : List (List (String × Nat))) (id : String) :
    Except CompilerError (Nat × Nat) :=
  match tbls with
  | [] => .error (.NameError id)
  | tbl :: rest =>
    match List.lookup id tbl with
    | some offset => .ok (rest.length, offset)
    | none => lookup_rev rest id

/-- `lookup_value` (util.rs:260): scans the scope stack from innermost
(last) to outermost (first) — `scope.iter().enumerate().rev()` — returning
the first `(depth, offset)` match, or a `NameError` if no table contains
the identifier. -/
def lookup_value (scope : List (List (String × Nat))) (id : String) :
    Except CompilerError (Nat × Nat) :=
  lookup_rev scope.reverse id

/-- Splits a character list at the last `/` that is followed by at least
one further character: returns the prefix including that slash and the
remainder.  This renders the greedy group `(.*/)?` of `FILENAME_RE =
(.*/)?(.+)\.py$` applied to the path with the `.py` suffix removed: the
capture must end in `/` and leave a non-empty stem for group 2. -/
def lastSlashSplit (cs : List Char) : Option (List Char × List Char) :=
  match cs with
  | [] => none
  | c :: rest =>
    match lastSlashSplit rest with
    | some (pre, post) => some (c :: pre, post)
    | none => if c = '/' ∧ rest ≠ [] then some ([c], rest) else none

/-- the function get_file_prefix (util.rs:8): matches the path against
`FILENAME_RE = (.*/)?(.+)\.py$`.  A match requires the `.py` suffix with a
non-empty stem; group 1 (if it participates) is the greedy-longest prefix
ending in `/` that leaves group 2 non-empty, and defaults to `./` when
absent; no match is an `IOError`.  (The `(Some, None)`/`(None, None)`
capture combinations of the source are unreachable: group 2 always
participates in a match of this pattern.) -/
def get_file_prefix (file : String) : Except CompilerError (String × String) :=
  let cs := file.toList
  if cs.length ≥ 4 ∧ cs.drop (cs.length - 3) = ['.', 'p', 'y'] then
    let core := cs.take (cs.length - 3)
    match lastSlashSplit core with
    | some (pre, post) => .ok (String.mk pre, String.mk post)
    | none => .ok ("./", String.mk core)
  else
    .error (.IOError ("unsupported filetype for file: " ++ file))

/-- Modelled from the spec: operands (`cfg::operand::Operand`, not under
src/) are "either an immediate literal value or a reference to a previously
computed value (virtual register)". -/
inductive Operand
  | ImmNum (n : Int)
  | Register (id : Nat)
deriving DecidableEq

/-- Modelled from the spec: instructions (`cfg::inst`, not under src/) —
`Branch{condition: optional operand, target: block, alt_target: optional
block}`, `Return{return_type, value: optional operand}`, and the
binary-operation instruction produced by arithmetic lowering, holding its
two source operands and the destination register. -/
inductive Instruction
  | Branch (condition : Option Operand) (target : String)
      (alt_target : Option String)
  | Return (return_type : String) (value : Option Operand)
  | BinaryOp (op : Operator) (left : Operand) (right : Operand) (dest : Nat)
deriving DecidableEq

/-- Modelled from the spec: a basic block owns an ordered instruction
sequence and a set of outgoing edges established by explicit connect
operations. -/
structure BasicBlock where
  insts : List Instruction
  succs : List String
deriving DecidableEq

/-- Modelled from the spec: the CFG (`cfg::CFG`, not under src/) owns the
blocks of one function, keyed by label, and designates one entry and one
exit block, both always present; `next_reg` supplies the fresh virtual
registers that `gen_bin_inst` allocates. -/
structure CFG where
  blocks : List (String × BasicBlock)
  entry_block : String
  exit_block : String
  next_reg : Nat

/-- Looks a block up by its label in the CFG's association list (the
rendering of the Rust block map). -/
def lookupBlock : List (String × BasicBlock) → String → Option BasicBlock
  | [], _ => none
  | p :: rest, k => if p.1 = k then some p.2 else lookupBlock rest k

/-- Modelled from the spec: `CFG::new` creates the graph with its entry and
exit blocks already present (and distinct), both empty. -/
def CFG.new : CFG :=
  { blocks := [("entry", ⟨[], []⟩), ("exit", ⟨[], []⟩)],
    entry_block := "entry", exit_block := "exit", next_reg := 0 }

/-- Appends one instruction to a block's instruction sequence. -/
def BasicBlock.push_inst (i : Instruction) (bb : BasicBlock) : BasicBlock :=
  { bb with insts := bb.insts ++ [i] }

/-- Appends one successor edge to a block. -/
def BasicBlock.push_succ (t : String) (bb : BasicBlock) : BasicBlock :=
  { bb with succs := bb.succs ++ [t] }

/-- Modelled from the spec: `add_inst(block, instruction)` appends the
instruction to the named block's instruction sequence (creating the block
if it is not present, so that appending is total). -/
def CFG.add_inst (cfg : CFG) (block : String) (inst : Instruction) : CFG :=
  if (lookupBlock cfg.blocks block).isSome then
    { cfg with
      blocks := cfg.blocks.map fun p =>
        if p.1 = block then (p.1, BasicBlock.push_inst inst p.2)
        else p }
  else
    { cfg with blocks := cfg.blocks ++ [(block, ⟨[inst], []⟩)] }

/-- Modelled from the spec: `connect_blocks(from, to)` adds an outgoing
edge from the first block to the second (creating the source block if it
is not present, so that connecting is total). -/
def CFG.connect_blocks (cfg : CFG) (bfrom bto : String) : CFG :=
  if (lookupBlock cfg.blocks bfrom).isSome then
    { cfg with
      blocks := cfg.blocks.map fun p =>
        if p.1 = bfrom then (p.1, BasicBlock.push_succ bto p.2)
        else p }
  else
    { cfg with blocks := cfg.blocks ++ [(bfrom, ⟨[], [bto]⟩)] }

/-- The instruction sequence of the named block (empty if absent). -/
def CFG.instsAt (cfg : CFG) (block : String) : List Instruction :=
  ((lookupBlock cfg.blocks block).map BasicBlock.insts).getD []

/-- The successor labels of the named block (empty if absent). -/
def CFG.succsAt (cfg : CFG) (block : String) : List String :=
  ((lookupBlock cfg.blocks block).map BasicBlock.succs).getD []

/-- Modelled from the spec: `util::gen_imm_num` (not under src/) lowers a
numeric literal to an immediate operand with no control-flow change and no
instruction required downstream of this model. -/
def gen_imm_num (cfg : CFG) (_cur_block : String) (n : Int) : CFG × Operand :=
  (cfg, .ImmNum n)

/-- Modelled from the spec: `util::gen_bin_inst` (not under src/) emits one
binary-operation instruction combining the two operands into a fresh
register operand, appended to the active block. -/
def gen_bin_inst (cfg : CFG) (cur_block : String) (op : Operator)
    (lft_oper rht_oper : Operand) : CFG × Operand :=
  let dest := cfg.next_reg
  (CFG.add_inst { cfg with next_reg := dest + 1 } cur_block
      (.BinaryOp op lft_oper rht_oper dest),
    .Register dest)

/-- `compile_expr` (mod.rs:109): dispatches on the expression kind; the
`BinOp` arm carries the body of `compile_expr_binop` (mod.rs:118) inlined
(the source dispatches to it on the same node): lower the left operand,
then the right, then emit one binary-operation instruction.  Mutating the
`CFG` is rendered as state passing; unsupported kinds are
`unimplemented!`. -/
def compile_expr (cfg : CFG) (cur_block : String) (expr : Expression) :
    Except CompilerError (CFG × Operand) :=
  match expr with
  | .BinOp left op right =>
    match compile_expr cfg cur_block left with
    | .ok (cfg1, lft_oper) =>
      match compile_expr cfg1 cur_block right with
      | .ok (cfg2, rht_oper) =>
        .ok (gen_bin_inst cfg2 cur_block op lft_oper rht_oper)
      | .error err => .error err
    | .error err => .error err
  | .Num n => .ok (gen_imm_num cfg cur_block n)
  | _ => .error (.Unsupported "expression kind not lowered")

/-- `compile_expr_binop` (mod.rs:118), written exactly as in the source:
lower the left operand, then the right, then `gen_bin_inst`; any other
expression kind is `unreachable!`. -/
def compile_expr_binop (cfg : CFG) (cur_block : String) (expr : Expression) :
    Except CompilerError (CFG × Operand) :=
  match expr with
  | .BinOp left op right =>
    match compile_expr cfg cur_block left with
    | .ok (cfg1, lft_oper) =>
      match compile_expr cfg1 cur_block right with
      | .ok (cfg2, rht_oper) =>
        .ok (gen_bin_inst cfg2 cur_block op lft_oper rht_oper)
      | .error err => .error err
    | .error err => .error err
  | _ => .error (.Unsupported "unreachable: compile_expr_binop on non-BinOp")

/-- `compile_stmt_expr` (mod.rs:98): lowers the value expression, discards
the resulting operand, and leaves the active block unchanged. -/
def compile_stmt_expr (cfg : CFG) (cur_block : String) (stmt : Statement) :
    Except CompilerError (CFG × String) :=
  match stmt with
  | .Expr value =>
    match compile_expr cfg cur_block value with
    | .ok (cfg2, _reg) => .ok (cfg2, cur_block)
    | .error err => .error err
  | _ => .error (.Unsupported "unreachable: compile_stmt_expr on non-Expr")

/-- `compile_stmt` (mod.rs:90): only expression-statements are lowered;
every other statement kind is `unimplemented!`. -/
def compile_stmt (cfg : CFG) (cur_block : String) (stmt : Statement) :
    Except CompilerError (CFG × String) :=
  match stmt with
  | .Expr _ => compile_stmt_expr cfg cur_block stmt
  | _ => .error (.Unsupported "statement kind not lowered")

/-- Modelled from the spec: `function::Function` (not under src/) is a
name, a return type, and the owned CFG. -/
structure Function where
  name : String
  return_type : String
  graph : CFG

/-- Modelled from the spec: `program::Program` (not under src/) is the
ordered function list, synthetic `main` first. -/
structure Program where
  funcs : List Function

/-- The statement loop of `gather_funcs` (mod.rs:34): `FunctionDef` hits
`unimplemented!`; everything else contributes nothing. -/
def gather_funcs_body (stmts : List Statement) :
    Except CompilerError (List Function) :=
  match stmts with
  | [] => .ok []
  | .FunctionDef _ _ _ :: _ =>
    .error (.Unsupported "function definition lowering")
  | _ :: rest => gather_funcs_body rest

/-- `gather_funcs` (mod.rs:34): scans the module body; no function is ever
produced, but a `FunctionDef` statement aborts (`unimplemented!`). -/
def gather_funcs (ast : Ast) : Except CompilerError (List Function) :=
  match ast with
  | .Module body => gather_funcs_body body

/-- The statement loop of `gather_main` (mod.rs:59): function and class
definitions are skipped; every other statement is lowered via
`compile_stmt`, updating the cursor. -/
def gather_main_stmts (cfg : CFG) (cur_block : String)
    (stmts : List Statement) : Except CompilerError (CFG × String) :=
  match stmts with
  | [] => .ok (cfg, cur_block)
  | .FunctionDef _ _ _ :: rest => gather_main_stmts cfg cur_block rest
  | .ClassDef _ _ :: rest => gather_main_stmts cfg cur_block rest
  | stmt :: rest =>
    match compile_stmt cfg cur_block stmt with
    | .ok (cfg2, cb2) => gather_main_stmts cfg2 cb2 rest
    | .error err => .error err

/-- `gather_main` (mod.rs:52): lowers the module body starting at the entry
block; afterwards, if the cursor is not the exit block, connects cursor →
exit and appends an unconditional branch to the cursor block; finally
appends `Return(void, none)` to the exit block and wraps the CFG as the
function `main` with return type void. -/
def gather_main (ast : Ast) : Except CompilerError Function :=
  match ast with
  | .Module body =>
    let cfg0 := CFG.new
    match gather_main_stmts cfg0 cfg0.entry_block body with
    | .ok (cfg, cur_block) =>
      let exit_block := cfg.exit_block
      let cfg2 :=
        if cur_block ≠ exit_block then
          CFG.add_inst (CFG.connect_blocks cfg cur_block exit_block) cur_block
            (.Branch none exit_block none)
        else cfg
      let cfg3 := CFG.add_inst cfg2 exit_block (.Return "void" none)
      .ok { name := "main", return_type := "void", graph := cfg3 }
    | .error err => .error err

/-- `compile` (mod.rs:18): gathers the function list, gathers `main`,
inserts `main` at index 0, and returns the Program.  The inert
optimization-level switch takes no argument here. -/
def compile (ast : Ast) : Except CompilerError Program :=
  match gather_funcs ast with
  | .ok funcs =>
    match gather_main ast with
    | .ok main => .ok { funcs := main :: funcs }
    | .error err => .error err
  | .error err => .error err

/-- An expression built from numeric literals and binary operations only. -/
def numBinExpr : Expression → Bool
  | .Num _ => true
  | .BinOp left _ right => numBinExpr left && numBinExpr right
  | _ => false

/-- A statement list consisting only of expression-statements whose value
expressions are built from numeric literals and binary operations. -/
def exprStmtsOnly : List Statement → Bool
  | [] => true
  | .Expr e :: rest => numBinExpr e && exprStmtsOnly rest
  | _ => false

/-- An assignment-target shape other than a plain name, a tuple, or a
list. -/
def isOtherTargetShape : Expression → Bool
  | .Name _ => false
  | .Tuple _ => false
  | .List _ => false
  | _ => true

mutual

/-- Whether a target expression holds a list target at a position
`unpack_assign_targets` reaches: at the top, or nested inside tuples. -/
def targetHasList : Expression → Bool
  | .List _ => true
  | .Tuple elts => targetsHaveList elts
  | _ => false

/-- Whether any target in the list holds a reachable list target. -/
def targetsHaveList : List Expression → Bool
  | [] => false
  | e :: rest => targetHasList e || targetsHaveList rest

end

/-- A statement whose binding shape the scope gatherer does not support:
an import-from statement, or an assignment with a (possibly tuple-nested)
list target. -/
def stmtUnsupportedBinding : Statement → Bool
  | .ImportFrom => true
  | .Assign targets _ => targetsHaveList targets
  | _ => false

mutual

/-- Follows the spec's words: the leaf names bound by recursively
unpacking one assignment or loop target — a plain name binds directly, a
tuple unpacks element-wise. -/
def specTargetIds : Expression → List String
  | .Name id => [id]
  | .Tuple elts => specTargetIdsList elts
  | _ => []

/-- Follows the spec's words: leaf names of a list of targets. -/
def specTargetIdsList : List Expression → List String
  | [] => []
  | e :: rest => specTargetIds e ++ specTargetIdsList rest

end

/-- Follows the spec's words: each imported name binds its alias if
present, otherwise its original name. -/
def specImportIds : List Alias → List String
  | [] => []
  | .Alias name asname :: rest =>
    (match asname with
      | some a => a
      | none => name) :: specImportIds rest

mutual

/-- Follows the spec's words: the statically discoverable bound
identifiers one statement contributes to its enclosing (non-class) scope —
function/class definition names, recursively unpacked assignment and
for-loop targets, import alias-or-original names, recursing through
loop/conditional bodies and else-branches. -/
def specStmtBoundIds : Statement → List String
  | .FunctionDef name _ _ => [name]
  | .ClassDef name _ => [name]
  | .Assign targets _ => specTargetIdsList targets
  | .For target _ body orelse =>
    specTargetIds target ++ specBoundIds body ++ specBoundIds orelse
  | .While _ body orelse => specBoundIds body ++ specBoundIds orelse
  | .If _ body orelse => specBoundIds body ++ specBoundIds orelse
  | .Import names => specImportIds names
  | _ => []

/-- Follows the spec's words: the statically discoverable bound
identifiers of a statement list. -/
def specBoundIds : List Statement → List String
  | [] => []
  | s :: rest => specStmtBoundIds s ++ specBoundIds rest

end

mutual

/-- Follows the spec's words: attribute names assigned through the self
alias in one target — an attribute access whose base is a plain name equal
to the alias binds the attribute; tuples unpack element-wise. -/
def specAliasTargetAttrs : Expression → String → List String
  | .Attribute value attr, als =>
    match value with
    | .Name id => if id = als then [attr] else []
    | _ => []
  | .Tuple elts, als => specAliasTargetAttrsList elts als
  | _, _ => []

/-- Follows the spec's words: alias-assigned attribute names of a list of
targets. -/
def specAliasTargetAttrsList : List Expression → String → List String
  | [], _ => []
  | e :: rest, als => specAliasTargetAttrs e als ++ specAliasTargetAttrsList rest als

end

mutual

/-- Follows the spec's words: attribute names one statement assigns
through the self alias, recursing through `for`/`while`/`if` bodies and
else-branches. -/
def specAliasStmtAttrs : Statement → String → List String
  | .Assign targets _, als => specAliasTargetAttrsList targets als
  | .For _ _ body orelse, als =>
    specAliasAttrs body als ++ specAliasAttrs orelse als
  | .While _ body orelse, als =>
    specAliasAttrs body als ++ specAliasAttrs orelse als
  | .If _ body orelse, als =>
    specAliasAttrs body als ++ specAliasAttrs orelse als
  | _, _ => []

/-- Follows the spec's words: attribute names a statement list assigns
through the self alias. -/
def specAliasAttrs : List Statement → String → List String
  | [], _ => []
  | s :: rest, als => specAliasStmtAttrs s als ++ specAliasAttrs rest als

end

/-! ### Helper lemmas -/

theorem gather_funcs_body_nil (stmts : List Statement) (fs : List Function)
    (h : gather_funcs_body stmts = .ok fs) : fs = [] := by
  induction stmts with
  | nil =>
    simp only [gather_funcs_body] at h
    injection h with h
    exact h.symm
  | cons s rest ih =>
    cases s <;> simp only [gather_funcs_body] at h <;>
      first
      | exact ih h
      | cases h

theorem lookup_value_concat (init : List (List (String × Nat)))
    (tbl : List (String × Nat)) (id : String) :
    lookup_value (init ++ [tbl]) id =
      match List.lookup id tbl with
      | some offset => .ok (init.length, offset)
      | none => lookup_value init id := by
  simp only [lookup_value, List.reverse_append, List.reverse_singleton,
    List.singleton_append, lookup_rev, List.length_reverse]

/-! ### C8 -/

/-- C8: the function get_file_prefix returns `("src/", "foo")` on `"src/foo.py"`,
defaults the directory to `"./"` on `"foo.py"`, and fails with an I/O-kind
error on every path not ending in the `.py` extension, such as
`"foo.txt"`. -/
theorem c8_file_prefix_cases :
    get_file_prefix "src/foo.py" = .ok ("src/", "foo") ∧
    get_file_prefix "foo.py" = .ok ("./", "foo") ∧
    (∀ file : String, ¬ (['.', 'p', 'y'] <:+ file.toList) →
      ∃ msg, get_file_prefix file = .error (.IOError msg)) ∧
    get_file_prefix "foo.txt" =
      .error (.IOError "unsupported filetype for file: foo.txt") := by
  refine ⟨rfl, rfl, ?_, rfl⟩
  intro file h
  refine ⟨"unsupported filetype for file: " ++ file, ?_⟩
  simp only [ get_file_prefix]
  rw [if_neg]
  rintro ⟨-, h2⟩
  exact h (h2 ▸ List.drop_suffix _ _)

/-- Witness for C8 at the concrete input `"x.md"`. -/
theorem c8_witness : ∃ msg, get_file_prefix "x.md" = .error (.IOError msg) :=
  c8_file_prefix_cases.2.2.1 "x.md" (by decide)

/-! ### C10 -/

/-- C10: an assignment target that is neither a plain name, nor a tuple,
nor a list (such as an attribute or subscript target) is silently ignored:
`unpack_assign_targets` succeeds leaving the scope unchanged, and
`gather_scope` on a statement list assigning to such a target succeeds
binding no identifier. -/
theorem c10_other_targets_ignored (target : Expression)
    (h : isOtherTargetShape target = true) :
    (∀ scope, unpack_assign_targets scope target = .ok scope) ∧
    ∀ value start_ndx is_class,
      gather_scope [.Assign [target] value] start_ndx is_class = .ok [] := by
  cases target <;> simp only [isOtherTargetShape] at h <;>
    first
    | exact ⟨fun scope => rfl, fun value s ic => rfl⟩
    | cases h

/-- Witness for C10 at the attribute target `x.y` and subscript target
`x[0]`. -/
theorem c10_witness :
    unpack_assign_targets ["q"] (.Attribute (.Name "x") "y") = .ok ["q"] ∧
    gather_scope [.Assign [.Attribute (.Name "x") "y"] (.Num 0)] 3 false = .ok [] ∧
    gather_scope [.Assign [.Subscript (.Name "x") (.Num 0)] (.Num 1)] 0 true = .ok [] :=
  ⟨(c10_other_targets_ignored (.Attribute (.Name "x") "y") rfl).1 ["q"],
   (c10_other_targets_ignored (.Attribute (.Name "x") "y") rfl).2 (.Num 0) 3 false,
   (c10_other_targets_ignored (.Subscript (.Name "x") (.Num 0)) rfl).2 (.Num 1) 0 true⟩

/-! ### C9 -/

/-- C9: whenever `compile` returns normally, the Program's function list is
exactly the synthetic `main` (the `gather_main` result) at index 0 and
nothing else. -/
theorem c9_compile_single_function (ast : Ast) (p : Program)
    (h : compile ast = .ok p) :
    ∃ m, gather_main ast = .ok m ∧ p.funcs = [m] := by
  cases ast with
  | Module body =>
    simp only [compile] at h
    cases hf : gather_funcs (.Module body) with
    | ok fs =>
      rw [hf] at h
      cases hm : gather_main (.Module body) with
      | ok m =>
        rw [hm] at h
        injection h with h
        refine ⟨m, rfl, ?_⟩
        rw [← h, gather_funcs_body_nil body fs hf]
      | error e => rw [hm] at h; cases h
    | error e => rw [hf] at h; cases h

/-- Witness for C9 at the empty module. -/
theorem c9_witness :
    ∃ m, gather_main (.Module []) = .ok m ∧
      (Program.mk [Function.mk "main" "void" (CFG.mk
        [("entry", BasicBlock.mk [.Branch none "exit" none] ["exit"]),
          ("exit", BasicBlock.mk [.Return "void" none] [])]
        "entry" "exit" 0)]).funcs =
      [m] :=
  c9_compile_single_function (.Module []) _ rfl

/-! ### C3 -/

/-- Counterexample to C3 as stated: on a module whose body holds a
`FunctionDef`, `compile` does not return a Program — `gather_funcs` hits
`unimplemented!` on the function definition. -/
theorem c3_counterexample :
    compile (.Module [.FunctionDef "f" (.Arguments [] none [] [] none []) []]) =
      .error (.Unsupported "function definition lowering") := rfl

/-- C3 (amended): for every module on which `gather_funcs` and
`gather_main` both return — in particular modules whose bodies hold
`ClassDef` statements, though not `FunctionDef` ones — the gathered
function list is empty and `compile` inserts the synthetic `main` at index
0 of the resulting Program. -/
theorem c3_compile_assembles (body : List Statement) (fs : List Function)
    (m : Function) (h1 : gather_funcs (.Module body) = .ok fs)
    (h2 : gather_main (.Module body) = .ok m) :
    fs = [] ∧ compile (.Module body) = .ok (Program.mk [m]) := by
  have hnil := gather_funcs_body_nil body fs h1
  subst hnil
  exact ⟨rfl, by simp only [compile, h1, h2]⟩

/-- Witness for C3 (amended) at a module holding a class definition. -/
theorem c3_witness :
    ([] : List Function) = [] ∧
    compile (.Module [.ClassDef "C" []]) = .ok (Program.mk [Function.mk
      "main" "void" (CFG.mk
        [("entry", BasicBlock.mk [.Branch none "exit" none] ["exit"]),
          ("exit", BasicBlock.mk [.Return "void" none] [])]
        "entry" "exit" 0)]) :=
  c3_compile_assembles [.ClassDef "C" []] [] _ rfl rfl

/-! ### C4 -/

/-- C4: `lookup_value` returns the `(depth, offset)` pair of the innermost
scope containing the identifier — every scope deeper than the returned
depth lacks the identifier — and returns a `NameError` for the identifier
exactly when no scope in the stack contains it. -/
theorem c4_lookup_shadowing (scope : List (List (String × Nat))) (id : String) :
    (∀ depth offset, lookup_value scope id = .ok (depth, offset) →
      (∃ tbl, scope[depth]? = some tbl ∧ List.lookup id tbl = some offset) ∧
      ∀ d2 tbl2, depth < d2 → scope[d2]? = some tbl2 →
        List.lookup id tbl2 = none) ∧
    (lookup_value scope id = .error (.NameError id) ↔
      ∀ tbl ∈ scope, List.lookup id tbl = none) := by
  induction scope using List.reverseRecOn with
  | nil =>
    refine ⟨?_, ?_⟩
    · intro d off h
      simp only [lookup_value, List.reverse_nil, lookup_rev] at h
      cases h
    · simp [lookup_value, lookup_rev]
  | append_singleton init tbl ih =>
    cases hlk : List.lookup id tbl with
    | some off =>
      have hcat : lookup_value (init ++ [tbl]) id = .ok (init.length, off) := by
        rw [lookup_value_concat, hlk]
      refine ⟨?_, ?_⟩
      · intro d o h
        rw [hcat] at h
        injection h with h
        injection h with hd ho
        subst hd; subst ho
        refine ⟨⟨tbl, ?_, hlk⟩, ?_⟩
        · rw [List.getElem?_append_right (le_refl _)]
          simp
        · intro d2 tbl2 hlt hget
          exfalso
          have hlen : d2 < init.length + 1 := by
            by_contra hge
            rw [List.getElem?_eq_none] at hget
            · cases hget
            · simpa using Nat.le_of_not_lt hge
          omega
      · rw [hcat]
        constructor
        · intro h; cases h
        · intro hall
          exact absurd (hall tbl (by simp)) (by simp [hlk])
    | none =>
      have hcat : lookup_value (init ++ [tbl]) id = lookup_value init id := by
        rw [lookup_value_concat, hlk]
      refine ⟨?_, ?_⟩
      · intro d o h
        rw [hcat] at h
        obtain ⟨⟨tbl1, hget1, hlk1⟩, hinner⟩ := ih.1 d o h
        have hdlt : d < init.length := by
          by_contra hge
          rw [List.getElem?_eq_none (Nat.le_of_not_lt hge)] at hget1
          cases hget1
        refine ⟨⟨tbl1, ?_, hlk1⟩, ?_⟩
        · rw [List.getElem?_append_left hdlt]
          exact hget1
        · intro d2 tbl2 hlt hget
          rcases Nat.lt_or_ge d2 init.length with hcase | hcase
          · rw [List.getElem?_append_left hcase] at hget
            exact hinner d2 tbl2 hlt hget
          · rcases Nat.lt_or_ge d2 (init.length + 1) with hcase2 | hcase2
            · have : d2 = init.length := by omega
              subst this
              rw [List.getElem?_append_right hcase] at hget
              simp at hget
              rw [← hget]
              exact hlk
            · rw [List.getElem?_eq_none (by simpa using hcase2)] at hget
              cases hget
      · rw [hcat, ih.2]
        constructor
        · intro hall t ht
          rcases List.mem_append.mp ht with h1 | h1
          · exact hall t h1
          · rw [List.mem_singleton.mp h1]
            exact hlk
        · intro hall t ht
          exact hall t (List.mem_append.mpr (Or.inl ht))

/-- Witness for C4: a two-level stack where the outer scope binds `x` at
offset 5 and the inner at offset 7; lookup yields depth 1, offset 7. -/
theorem c4_witness :
    lookup_value [[("x", 5)], [("x", 7)]] "x" = .ok (1, 7) ∧
    (∃ tbl, [[("x", 5)], [("x", 7)]][(1 : Nat)]? = some tbl ∧
      List.lookup "x" tbl = some 7) :=
  ⟨rfl, ((c4_lookup_shadowing [[("x", 5)], [("x", 7)]] "x").1 1 7 rfl).1⟩


/-! ### CFG bookkeeping lemmas -/

theorem lookupBlock_map_set (l : List (String × BasicBlock)) (b : String)
    (f : BasicBlock → BasicBlock) (blk : String) :
    lookupBlock (l.map fun p => if p.1 = b then (p.1, f p.2) else p) blk =
      if blk = b then (lookupBlock l blk).map f else lookupBlock l blk := by
  induction l with
  | nil => simp [lookupBlock]
  | cons p rest ih =>
    obtain ⟨k, v⟩ := p
    simp only [List.map_cons]
    by_cases hkb : k = b
    · rw [if_pos hkb]
      by_cases hblk : blk = b
      · have hkblk : k = blk := by rw [hkb, hblk]
        simp only [lookupBlock, if_pos hkblk, if_pos hblk]
        rfl
      · have hkblk : ¬ k = blk := fun hh => hblk (by rw [← hh, hkb])
        simp only [lookupBlock, if_neg hkblk, if_neg hblk, ih]
    · rw [if_neg hkb]
      by_cases hblk : blk = b
      · have hkblk : ¬ k = blk := fun hh => hkb (hh.trans hblk)
        simp only [lookupBlock, if_neg hkblk, ih, if_pos hblk]
      · by_cases hkblk : k = blk
        · simp only [lookupBlock, if_pos hkblk, if_neg hblk]
        · simp only [lookupBlock, if_neg hkblk, ih]

theorem lookupBlock_append (l1 l2 : List (String × BasicBlock)) (blk : String) :
    lookupBlock (l1 ++ l2) blk =
      match lookupBlock l1 blk with
      | some v => some v
      | none => lookupBlock l2 blk := by
  induction l1 with
  | nil => simp [lookupBlock]
  | cons p rest ih =>
    obtain ⟨k, v⟩ := p
    by_cases hk : k = blk <;> simp [lookupBlock, hk, ih]

theorem instsAt_add_inst (cfg : CFG) (b : String) (i : Instruction) :
    (cfg.add_inst b i).instsAt b = cfg.instsAt b ++ [i] := by
  rw [CFG.add_inst]
  split
  · rename_i hsome
    simp only [CFG.instsAt]
    rw [lookupBlock_map_set, if_pos rfl]
    obtain ⟨bb, hbb⟩ := Option.isSome_iff_exists.mp hsome
    rw [hbb]
    rfl
  · rename_i hnone
    simp only [CFG.instsAt]
    rw [lookupBlock_append, Option.not_isSome_iff_eq_none.mp hnone]
    simp [lookupBlock]

theorem instsAt_add_inst_ne (cfg : CFG) (b blk : String) (i : Instruction)
    (hne : blk ≠ b) :
    (cfg.add_inst b i).instsAt blk = cfg.instsAt blk := by
  rw [CFG.add_inst]
  split
  · simp only [CFG.instsAt]
    rw [lookupBlock_map_set, if_neg hne]
  · rename_i hnone
    simp only [CFG.instsAt]
    rw [lookupBlock_append]
    cases hlk : lookupBlock cfg.blocks blk with
    | some bb => rfl
    | none => simp [lookupBlock, Ne.symm hne]

theorem succsAt_add_inst (cfg : CFG) (b blk : String) (i : Instruction) :
    (cfg.add_inst b i).succsAt blk = cfg.succsAt blk := by
  rw [CFG.add_inst]
  split
  · simp only [CFG.succsAt]
    rw [lookupBlock_map_set]
    split
    · cases lookupBlock cfg.blocks blk <;> rfl
    · rfl
  · rename_i hnone
    simp only [CFG.succsAt]
    rw [lookupBlock_append]
    cases hlk : lookupBlock cfg.blocks blk with
    | some bb => rfl
    | none =>
      by_cases hblk : blk = b
      · subst hblk
        rw [Option.not_isSome_iff_eq_none.mp hnone] at hlk
        simp [lookupBlock]
      · simp only [hlk, lookupBlock]
        all_goals rw [if_neg (fun hh => hblk (Eq.symm hh))]

theorem succsAt_connect (cfg : CFG) (a c : String) :
    (cfg.connect_blocks a c).succsAt a = cfg.succsAt a ++ [c] := by
  rw [CFG.connect_blocks]
  split
  · rename_i hsome
    simp only [CFG.succsAt]
    rw [lookupBlock_map_set, if_pos rfl]
    obtain ⟨bb, hbb⟩ := Option.isSome_iff_exists.mp hsome
    rw [hbb]
    rfl
  · rename_i hnone
    simp only [CFG.succsAt]
    rw [lookupBlock_append, Option.not_isSome_iff_eq_none.mp hnone]
    simp [lookupBlock]

theorem succsAt_connect_ne (cfg : CFG) (a c blk : String) (hne : blk ≠ a) :
    (cfg.connect_blocks a c).succsAt blk = cfg.succsAt blk := by
  rw [CFG.connect_blocks]
  split
  · simp only [CFG.succsAt]
    rw [lookupBlock_map_set, if_neg hne]
  · rename_i hnone
    simp only [CFG.succsAt]
    rw [lookupBlock_append]
    cases hlk : lookupBlock cfg.blocks blk with
    | some bb => rfl
    | none => simp [lookupBlock, Ne.symm hne]

theorem instsAt_connect (cfg : CFG) (a c blk : String) :
    (cfg.connect_blocks a c).instsAt blk = cfg.instsAt blk := by
  rw [CFG.connect_blocks]
  split
  · simp only [CFG.instsAt]
    rw [lookupBlock_map_set]
    split
    · cases lookupBlock cfg.blocks blk <;> rfl
    · rfl
  · rename_i hnone
    simp only [CFG.instsAt]
    rw [lookupBlock_append]
    cases hlk : lookupBlock cfg.blocks blk with
    | some bb => rfl
    | none =>
      by_cases hblk : blk = a
      · subst hblk
        rw [Option.not_isSome_iff_eq_none.mp hnone] at hlk
        simp [lookupBlock]
      · simp only [hlk, lookupBlock]
        all_goals rw [if_neg (fun hh => hblk (Eq.symm hh))]

theorem add_inst_entry (cfg : CFG) (b : String) (i : Instruction) :
    (cfg.add_inst b i).entry_block = cfg.entry_block := by
  rw [CFG.add_inst]; split <;> rfl

theorem add_inst_exit (cfg : CFG) (b : String) (i : Instruction) :
    (cfg.add_inst b i).exit_block = cfg.exit_block := by
  rw [CFG.add_inst]; split <;> rfl

theorem connect_entry (cfg : CFG) (a c : String) :
    (cfg.connect_blocks a c).entry_block = cfg.entry_block := by
  rw [CFG.connect_blocks]; split <;> rfl

theorem connect_exit (cfg : CFG) (a c : String) :
    (cfg.connect_blocks a c).exit_block = cfg.exit_block := by
  rw [CFG.connect_blocks]; split <;> rfl

/-- `compile_expr` only appends instructions: the instruction sequence of
every block grows by a (possibly empty) suffix. -/
theorem compile_expr_insts (e : Expression) (cfg : CFG) (b : String)
    (out : CFG × Operand) (h : compile_expr cfg b e = .ok out) (blk : String) :
    ∃ l, out.1.instsAt blk = cfg.instsAt blk ++ l := by
  match e with
  | .Num n =>
    simp only [compile_expr, gen_imm_num] at h
    injection h with h
    subst h
    exact ⟨[], by simp⟩
  | .BinOp left op right =>
    simp only [compile_expr] at h
    split at h
    · rename_i cfg1 lft h1
      split at h
      · rename_i cfg2 rht h2
        injection h with h
        subst h
        obtain ⟨l1, hl1⟩ := compile_expr_insts left cfg b (cfg1, lft) h1 blk
        obtain ⟨l2, hl2⟩ := compile_expr_insts right cfg1 b (cfg2, rht) h2 blk
        simp only [gen_bin_inst]
        have hmid : CFG.instsAt { cfg2 with next_reg := cfg2.next_reg + 1 } blk
            = cfg2.instsAt blk := rfl
        by_cases hblk : blk = b
        · subst hblk
          refine ⟨l1 ++ l2 ++ [.BinaryOp op lft rht cfg2.next_reg], ?_⟩
          rw [instsAt_add_inst, hmid, hl2, hl1]
          simp
        · refine ⟨l1 ++ l2, ?_⟩
          rw [instsAt_add_inst_ne _ _ _ _ hblk, hmid, hl2, hl1]
          simp
      · cases h
    · cases h
  | .Name id => simp [compile_expr] at h
  | .Attribute v a => simp [compile_expr] at h
  | .Subscript v n => simp [compile_expr] at h
  | .List elts => simp [compile_expr] at h
  | .Tuple elts => simp [compile_expr] at h

/-- `compile_expr` leaves every block's successor list unchanged and
preserves the entry and exit labels. -/
theorem compile_expr_frame (e : Expression) (cfg : CFG) (b : String)
    (out : CFG × Operand) (h : compile_expr cfg b e = .ok out) :
    (∀ blk, out.1.succsAt blk = cfg.succsAt blk) ∧
    out.1.entry_block = cfg.entry_block ∧ out.1.exit_block = cfg.exit_block := by
  match e with
  | .Num n =>
    simp only [compile_expr, gen_imm_num] at h
    injection h with h
    subst h
    exact ⟨fun blk => rfl, rfl, rfl⟩
  | .BinOp left op right =>
    simp only [compile_expr] at h
    split at h
    · rename_i cfg1 lft h1
      split at h
      · rename_i cfg2 rht h2
        injection h with h
        subst h
        obtain ⟨hs1, he1, hx1⟩ := compile_expr_frame left cfg b (cfg1, lft) h1
        obtain ⟨hs2, he2, hx2⟩ := compile_expr_frame right cfg1 b (cfg2, rht) h2
        simp only [gen_bin_inst]
        refine ⟨fun blk => ?_, ?_, ?_⟩
        · rw [succsAt_add_inst]
          have hmid : CFG.succsAt { cfg2 with next_reg := cfg2.next_reg + 1 } blk
              = cfg2.succsAt blk := rfl
          rw [hmid, hs2, hs1]
        · rw [add_inst_entry]
          exact he2.trans he1
        · rw [add_inst_exit]
          exact hx2.trans hx1
      · cases h
    · cases h
  | .Name id => simp [compile_expr] at h
  | .Attribute v a => simp [compile_expr] at h
  | .Subscript v n => simp [compile_expr] at h
  | .List elts => simp [compile_expr] at h
  | .Tuple elts => simp [compile_expr] at h

/-! ### C7 -/

/-- C7: lowering `BinOp(left, op, right)` lowers the left operand fully
(appending its instructions to the active block) before lowering the right
operand, and then appends exactly one binary-operation instruction
combining the two resulting operands into a new register operand. -/
theorem c7_binop_eval_order (cfg : CFG) (cur_block : String)
    (left : Expression) (op : Operator) (right : Expression)
    (cfg3 : CFG) (oper : Operand)
    (h : compile_expr_binop cfg cur_block (.BinOp left op right) =
      .ok (cfg3, oper)) :
    ∃ cfg1 lft_oper cfg2 rht_oper,
      compile_expr cfg cur_block left = .ok (cfg1, lft_oper) ∧
      compile_expr cfg1 cur_block right = .ok (cfg2, rht_oper) ∧
      (∃ l1, cfg1.instsAt cur_block = cfg.instsAt cur_block ++ l1) ∧
      (∃ l2, cfg2.instsAt cur_block = cfg1.instsAt cur_block ++ l2) ∧
      cfg3.instsAt cur_block = cfg2.instsAt cur_block ++
        [.BinaryOp op lft_oper rht_oper cfg2.next_reg] ∧
      oper = .Register cfg2.next_reg := by
  simp only [compile_expr_binop] at h
  split at h
  · rename_i cfg1 lft h1
    split at h
    · rename_i cfg2 rht h2
      simp only [gen_bin_inst] at h
      injection h with h
      injection h with hc ho
      refine ⟨cfg1, lft, cfg2, rht, h1, h2,
        compile_expr_insts left cfg cur_block (cfg1, lft) h1 cur_block,
        compile_expr_insts right cfg1 cur_block (cfg2, rht) h2 cur_block,
        ?_, ho.symm⟩
      rw [← hc]
      have hstep := instsAt_add_inst { cfg2 with next_reg := cfg2.next_reg + 1 }
        cur_block (.BinaryOp op lft rht cfg2.next_reg)
      simp only [CFG.instsAt] at hstep ⊢
      exact hstep
    · cases h
  · cases h

/-- Witness for C7 at the concrete binary operation `1 + 2` lowered into a
fresh CFG at its entry block. -/
theorem c7_witness :
    ∃ cfg1 lft_oper cfg2 rht_oper,
      compile_expr CFG.new "entry" (.Num 1) = .ok (cfg1, lft_oper) ∧
      compile_expr cfg1 "entry" (.Num 2) = .ok (cfg2, rht_oper) ∧
      (∃ l1, cfg1.instsAt "entry" = CFG.new.instsAt "entry" ++ l1) ∧
      (∃ l2, cfg2.instsAt "entry" = cfg1.instsAt "entry" ++ l2) ∧
      (CFG.mk [("entry", BasicBlock.mk
          [.BinaryOp .Add (.ImmNum 1) (.ImmNum 2) 0] []),
          ("exit", BasicBlock.mk [] [])] "entry" "exit" 1).instsAt "entry" =
        cfg2.instsAt "entry" ++
          [.BinaryOp .Add lft_oper rht_oper cfg2.next_reg] ∧
      Operand.Register 0 = .Register cfg2.next_reg :=
  c7_binop_eval_order CFG.new "entry" (.Num 1) .Add (.Num 2) _ _ rfl

/-! ### C1 -/

/-- Expressions built from numeric literals and binary operations always
lower successfully. -/
theorem compile_expr_ok (e : Expression) (he : numBinExpr e = true)
    (cfg : CFG) (b : String) :
    ∃ res, compile_expr cfg b e = .ok res := by
  match e with
  | .Num n => exact ⟨(cfg, .ImmNum n), rfl⟩
  | .BinOp left op right =>
    simp only [numBinExpr, Bool.and_eq_true] at he
    obtain ⟨⟨cfg1, lft⟩, h1⟩ := compile_expr_ok left he.1 cfg b
    obtain ⟨⟨cfg2, rht⟩, h2⟩ := compile_expr_ok right he.2 cfg1 b
    exact ⟨gen_bin_inst cfg2 b op lft rht, by simp only [compile_expr, h1, h2]⟩
  | .Name id => simp [numBinExpr] at he
  | .Attribute v a => simp [numBinExpr] at he
  | .Subscript v n => simp [numBinExpr] at he
  | .List elts => simp [numBinExpr] at he
  | .Tuple elts => simp [numBinExpr] at he

/-- Lowering a list of numeric expression-statements succeeds, keeps the
cursor on the same block, adds no edges, and preserves the entry and exit
labels. -/
theorem gather_main_stmts_straightline (stmts : List Statement) (cb : String) :
    ∀ cfg, exprStmtsOnly stmts = true →
      ∃ cfg2, gather_main_stmts cfg cb stmts = .ok (cfg2, cb) ∧
        (∀ blk, cfg2.succsAt blk = cfg.succsAt blk) ∧
        cfg2.entry_block = cfg.entry_block ∧
        cfg2.exit_block = cfg.exit_block := by
  induction stmts with
  | nil =>
    intro cfg h
    exact ⟨cfg, rfl, fun blk => rfl, rfl, rfl⟩
  | cons s rest ih =>
    intro cfg h
    cases s
    case Expr e =>
      simp only [exprStmtsOnly, Bool.and_eq_true] at h
      obtain ⟨⟨cfg1, oper⟩, hres⟩ := compile_expr_ok e h.1 cfg cb
      obtain ⟨hsucc1, hent1, hexi1⟩ := compile_expr_frame e cfg cb (cfg1, oper) hres
      obtain ⟨cfg2, hrec, hsucc, hent, hexi⟩ := ih cfg1 h.2
      refine ⟨cfg2, ?_, ?_, ?_, ?_⟩
      · simp only [gather_main_stmts, compile_stmt, compile_stmt_expr, hres]
        exact hrec
      · intro blk
        rw [hsucc blk, hsucc1 blk]
      · rw [hent, hent1]
      · rw [hexi, hexi1]
    all_goals simp [exprStmtsOnly] at h

/-- Gathering functions over a body of expression-statements produces the
empty function list. -/
theorem gather_funcs_body_exprs (stmts : List Statement)
    (h : exprStmtsOnly stmts = true) : gather_funcs_body stmts = .ok [] := by
  induction stmts with
  | nil => rfl
  | cons s rest ih =>
    cases s
    case Expr e =>
      simp only [exprStmtsOnly, Bool.and_eq_true] at h
      simp only [gather_funcs_body]
      exact ih h.2
    all_goals simp [exprStmtsOnly] at h

/-- C1: for every module whose body consists only of expression-statements
built from numeric literals and binary operations, `gather_main` returns a
Function named `main` with return type void whose CFG's exit block ends in
`Return(void, none)` and whose entry block (the straight-line block the
statements were lowered into) is connected directly to the exit block; and
`compile` on such a module — in particular the single statement `1 + 2` —
returns a Program whose first function is that `main`. -/
theorem c1_gather_main_straightline (body : List Statement)
    (h : exprStmtsOnly body = true) :
    ∃ f, gather_main (.Module body) = .ok f ∧
      f.name = "main" ∧ f.return_type = "void" ∧
      (f.graph.instsAt f.graph.exit_block).getLast? =
        some (.Return "void" none) ∧
      f.graph.exit_block ∈ f.graph.succsAt f.graph.entry_block ∧
      compile (.Module body) = .ok (Program.mk [f]) := by
  obtain ⟨cfg2, hrec, hsucc, hent, hexi⟩ :=
    gather_main_stmts_straightline body CFG.new.entry_block CFG.new h
  have hexit2 : cfg2.exit_block = "exit" := hexi
  have hgm : gather_main (.Module body) = .ok
      ⟨"main", "void", CFG.add_inst (CFG.add_inst
        (CFG.connect_blocks cfg2 "entry" "exit") "entry"
        (.Branch none "exit" none)) "exit" (.Return "void" none)⟩ := by
    simp only [gather_main, hrec]
    rw [hexit2, if_pos (show CFG.new.entry_block ≠ "exit" by decide)]
    rfl
  have hgf : gather_funcs (.Module body) = .ok [] :=
    gather_funcs_body_exprs body h
  refine ⟨_, hgm, rfl, rfl, ?_, ?_, ?_⟩
  · rw [show (CFG.add_inst (CFG.add_inst (CFG.connect_blocks cfg2 "entry"
        "exit") "entry" (.Branch none "exit" none)) "exit"
        (.Return "void" none)).exit_block = "exit" from by
      rw [add_inst_exit, add_inst_exit, connect_exit, hexit2]]
    rw [instsAt_add_inst]
    exact List.getLast?_concat _
  · rw [show (CFG.add_inst (CFG.add_inst (CFG.connect_blocks cfg2 "entry"
        "exit") "entry" (.Branch none "exit" none)) "exit"
        (.Return "void" none)).exit_block = "exit" from by
      rw [add_inst_exit, add_inst_exit, connect_exit, hexit2]]
    rw [show (CFG.add_inst (CFG.add_inst (CFG.connect_blocks cfg2 "entry"
        "exit") "entry" (.Branch none "exit" none)) "exit"
        (.Return "void" none)).entry_block = "entry" from by
      rw [add_inst_entry, add_inst_entry, connect_entry, hent]
      rfl]
    rw [succsAt_add_inst, succsAt_add_inst, succsAt_connect]
    exact List.mem_append_right _ (by simp)
  · simp only [compile, hgf, hgm]

/-- Witness for C1 at the module whose body is the single
expression-statement `1 + 2`. -/
theorem c1_witness :
    ∃ f, gather_main (.Module [.Expr (.BinOp (.Num 1) .Add (.Num 2))]) =
        .ok f ∧
      f.name = "main" ∧ f.return_type = "void" ∧
      (f.graph.instsAt f.graph.exit_block).getLast? =
        some (.Return "void" none) ∧
      f.graph.exit_block ∈ f.graph.succsAt f.graph.entry_block ∧
      compile (.Module [.Expr (.BinOp (.Num 1) .Add (.Num 2))]) =
        .ok (Program.mk [f]) :=
  c1_gather_main_straightline [.Expr (.BinOp (.Num 1) .Add (.Num 2))] rfl

/-! ### C6 -/

mutual

/-- Every failure of `unpack_assign_targets` is an unsupported-construct
error. -/
theorem unpack_targets_err (target : Expression) (scope : List String)
    (e : CompilerError) (h : unpack_assign_targets scope target = .error e) :
    ∃ msg, e = .Unsupported msg := by
  match target with
  | .Name id =>
    simp only [unpack_assign_targets] at h
    cases h
  | .List elts =>
    simp only [unpack_assign_targets] at h
    injection h with h
    exact ⟨_, h.symm⟩
  | .Tuple elts =>
    simp only [unpack_assign_targets] at h
    exact unpack_targets_elts_err elts scope e h
  | .BinOp l op r =>
    simp only [unpack_assign_targets] at h
    cases h
  | .Num n =>
    simp only [unpack_assign_targets] at h
    cases h
  | .Attribute v a =>
    simp only [unpack_assign_targets] at h
    cases h
  | .Subscript v n =>
    simp only [unpack_assign_targets] at h
    cases h

/-- Every failure of the target-list fold is an unsupported-construct
error. -/
theorem unpack_targets_elts_err (elts : List Expression) (scope : List String)
    (e : CompilerError)
    (h : unpack_assign_targets_elts scope elts = .error e) :
    ∃ msg, e = .Unsupported msg := by
  match elts with
  | [] =>
    simp only [unpack_assign_targets_elts] at h
    cases h
  | t :: rest =>
    simp only [unpack_assign_targets_elts] at h
    split at h
    · exact unpack_targets_elts_err rest _ e h
    · rename_i err herr
      injection h with h
      subst h
      exact unpack_targets_err t scope err herr

end

mutual

/-- Every failure of `unpack_assign_alias` is an unsupported-construct
error. -/
theorem unpack_alias_err (target : Expression) (scope : List String)
    (als : String) (e : CompilerError)
    (h : unpack_assign_alias scope target als = .error e) :
    ∃ msg, e = .Unsupported msg := by
  match target with
  | .Attribute value attr =>
    simp only [unpack_assign_alias] at h
    split at h
    · split at h <;> cases h
    · cases h
  | .List elts =>
    simp only [unpack_assign_alias] at h
    injection h with h
    exact ⟨_, h.symm⟩
  | .Tuple elts =>
    simp only [unpack_assign_alias] at h
    exact unpack_alias_elts_err elts scope als e h
  | .BinOp l op r =>
    simp only [unpack_assign_alias] at h
    cases h
  | .Num n =>
    simp only [unpack_assign_alias] at h
    cases h
  | .Name id =>
    simp only [unpack_assign_alias] at h
    cases h
  | .Subscript v n =>
    simp only [unpack_assign_alias] at h
    cases h

/-- Every failure of the alias target-list fold is an unsupported-construct
error. -/
theorem unpack_alias_elts_err (elts : List Expression) (scope : List String)
    (als : String) (e : CompilerError)
    (h : unpack_assign_alias_elts scope elts als = .error e) :
    ∃ msg, e = .Unsupported msg := by
  match elts with
  | [] =>
    simp only [unpack_assign_alias_elts] at h
    cases h
  | t :: rest =>
    simp only [unpack_assign_alias_elts] at h
    split at h
    · exact unpack_alias_elts_err rest _ als e h
    · rename_i err herr
      injection h with h
      subst h
      exact unpack_alias_err t scope als err herr

end

mutual

/-- Every failure of `rec_gather_class_init` is an unsupported-construct
error. -/
theorem rec_class_init_err (stmts : List Statement) (scope : List String)
    (sa : String) (e : CompilerError)
    (h : rec_gather_class_init scope stmts sa = .error e) :
    ∃ msg, e = .Unsupported msg := by
  match stmts with
  | [] =>
    simp only [rec_gather_class_init] at h
    cases h
  | s :: rest =>
    simp only [rec_gather_class_init] at h
    split at h
    · exact rec_class_init_err rest _ sa e h
    · rename_i err herr
      injection h with h
      subst h
      exact rec_class_init_stmt_err s scope sa err herr

/-- Every failure of one class-init statement step is an
unsupported-construct error. -/
theorem rec_class_init_stmt_err (s : Statement) (scope : List String)
    (sa : String) (e : CompilerError)
    (h : rec_gather_class_init_stmt scope s sa = .error e) :
    ∃ msg, e = .Unsupported msg := by
  match s with
  | .Assign targets v =>
    simp only [rec_gather_class_init_stmt] at h
    exact unpack_alias_elts_err targets scope sa e h
  | .For t i body orelse =>
    simp only [rec_gather_class_init_stmt] at h
    split at h
    · exact rec_class_init_err orelse _ sa e h
    · rename_i err herr
      injection h with h
      subst h
      exact rec_class_init_err body scope sa err herr
  | .While t body orelse =>
    simp only [rec_gather_class_init_stmt] at h
    split at h
    · exact rec_class_init_err orelse _ sa e h
    · rename_i err herr
      injection h with h
      subst h
      exact rec_class_init_err body scope sa err herr
  | .If t body orelse =>
    simp only [rec_gather_class_init_stmt] at h
    split at h
    · exact rec_class_init_err orelse _ sa e h
    · rename_i err herr
      injection h with h
      subst h
      exact rec_class_init_err body scope sa err herr
  | .FunctionDef n a b =>
    simp only [rec_gather_class_init_stmt] at h
    cases h
  | .ClassDef n b =>
    simp only [rec_gather_class_init_stmt] at h
    cases h
  | .Import n =>
    simp only [rec_gather_class_init_stmt] at h
    cases h
  | .ImportFrom =>
    simp only [rec_gather_class_init_stmt] at h
    cases h
  | .Expr v =>
    simp only [rec_gather_class_init_stmt] at h
    cases h
  | .Return v =>
    simp only [rec_gather_class_init_stmt] at h
    cases h

end

/-- Every failure of `gather_class_init` is an unsupported-construct
error. -/
theorem gather_class_init_err (func : Statement) (scope : List String)
    (e : CompilerError) (h : gather_class_init scope func = .error e) :
    ∃ msg, e = .Unsupported msg := by
  match func with
  | .FunctionDef name args body =>
    simp only [gather_class_init] at h
    split at h
    · injection h with h
      exact ⟨_, h.symm⟩
    · match args with
      | .Arguments args2 v ko kd kw d =>
        simp only at h
        match args2 with
        | .Arg a :: rest => exact rec_class_init_err body scope a e h
        | [] => cases h
  | .ClassDef n b => exact ⟨_, (Except.error.inj h).symm⟩
  | .Assign t v => exact ⟨_, (Except.error.inj h).symm⟩
  | .For t i b o => exact ⟨_, (Except.error.inj h).symm⟩
  | .While t b o => exact ⟨_, (Except.error.inj h).symm⟩
  | .If t b o => exact ⟨_, (Except.error.inj h).symm⟩
  | .Import n => exact ⟨_, (Except.error.inj h).symm⟩
  | .ImportFrom => exact ⟨_, (Except.error.inj h).symm⟩
  | .Expr v => exact ⟨_, (Except.error.inj h).symm⟩
  | .Return v => exact ⟨_, (Except.error.inj h).symm⟩

mutual

/-- Every failure of `rec_gather_scope` is an unsupported-construct
error. -/
theorem rec_scope_err (stmts : List Statement) (scope : List String)
    (ic : Bool) (e : CompilerError)
    (h : rec_gather_scope scope stmts ic = .error e) :
    ∃ msg, e = .Unsupported msg := by
  match stmts with
  | [] =>
    simp only [rec_gather_scope] at h
    cases h
  | s :: rest =>
    simp only [rec_gather_scope] at h
    split at h
    · exact rec_scope_err rest _ ic e h
    · rename_i err herr
      injection h with h
      subst h
      exact rec_scope_stmt_err s scope ic err herr

/-- Every failure of one scope-gathering statement step is an
unsupported-construct error. -/
theorem rec_scope_stmt_err (s : Statement) (scope : List String) (ic : Bool)
    (e : CompilerError) (h : rec_gather_scope_stmt scope s ic = .error e) :
    ∃ msg, e = .Unsupported msg := by
  match s with
  | .FunctionDef name args body =>
    simp only [rec_gather_scope_stmt] at h
    split at h
    · exact gather_class_init_err _ _ e h
    · cases h
  | .ClassDef n b =>
    simp only [rec_gather_scope_stmt] at h
    cases h
  | .Assign targets v =>
    simp only [rec_gather_scope_stmt] at h
    exact unpack_targets_elts_err targets scope e h
  | .For target i body orelse =>
    simp only [rec_gather_scope_stmt] at h
    split at h
    · split at h
      · exact rec_scope_err orelse _ ic e h
      · rename_i err herr
        injection h with h
        subst h
        exact rec_scope_err body _ ic err herr
    · rename_i err herr
      injection h with h
      subst h
      exact unpack_targets_err target scope err herr
  | .While t body orelse =>
    simp only [rec_gather_scope_stmt] at h
    split at h
    · exact rec_scope_err orelse _ ic e h
    · rename_i err herr
      injection h with h
      subst h
      exact rec_scope_err body scope ic err herr
  | .If t body orelse =>
    simp only [rec_gather_scope_stmt] at h
    split at h
    · exact rec_scope_err orelse _ ic e h
    · rename_i err herr
      injection h with h
      subst h
      exact rec_scope_err body scope ic err herr
  | .Import names =>
    simp only [rec_gather_scope_stmt] at h
    cases h
  | .ImportFrom =>
    simp only [rec_gather_scope_stmt] at h
    injection h with h
    exact ⟨_, h.symm⟩
  | .Expr v =>
    simp only [rec_gather_scope_stmt] at h
    cases h
  | .Return v =>
    simp only [rec_gather_scope_stmt] at h
    cases h

end

mutual

/-- A target holding a (possibly tuple-nested) list target never unpacks
successfully. -/
theorem unpack_targets_hasList (target : Expression)
    (ht : targetHasList target = true) (scope : List String)
    (out : List String) : unpack_assign_targets scope target ≠ .ok out := by
  match target with
  | .List elts =>
    intro h
    simp only [unpack_assign_targets] at h
    cases h
  | .Tuple elts =>
    intro h
    simp only [targetHasList] at ht
    simp only [unpack_assign_targets] at h
    exact unpack_targets_elts_hasList elts ht scope out h
  | .Name id => simp [targetHasList] at ht
  | .BinOp l op r => simp [targetHasList] at ht
  | .Num n => simp [targetHasList] at ht
  | .Attribute v a => simp [targetHasList] at ht
  | .Subscript v n => simp [targetHasList] at ht

/-- A target list holding a reachable list target never unpacks
successfully. -/
theorem unpack_targets_elts_hasList (elts : List Expression)
    (ht : targetsHaveList elts = true) (scope : List String)
    (out : List String) : unpack_assign_targets_elts scope elts ≠ .ok out := by
  match elts with
  | [] => simp [targetsHaveList] at ht
  | t :: rest =>
    intro h
    simp only [targetsHaveList, Bool.or_eq_true] at ht
    simp only [unpack_assign_targets_elts] at h
    split at h
    · rename_i s2 hok
      rcases ht with ht | ht
      · exact unpack_targets_hasList t ht scope s2 hok
      · exact unpack_targets_elts_hasList rest ht s2 out h
    · cases h

end

/-- A statement with an unsupported binding shape makes the per-statement
scope step fail. -/
theorem rec_scope_stmt_unsupported (s : Statement)
    (hs : stmtUnsupportedBinding s = true) (scope : List String) (ic : Bool)
    (out : List String) : rec_gather_scope_stmt scope s ic ≠ .ok out := by
  match s with
  | .ImportFrom =>
    intro h
    simp only [rec_gather_scope_stmt] at h
    cases h
  | .Assign targets v =>
    intro h
    simp only [stmtUnsupportedBinding] at hs
    simp only [rec_gather_scope_stmt] at h
    exact unpack_targets_elts_hasList targets hs scope out h
  | .FunctionDef n a b => simp [stmtUnsupportedBinding] at hs
  | .ClassDef n b => simp [stmtUnsupportedBinding] at hs
  | .For t i b o => simp [stmtUnsupportedBinding] at hs
  | .While t b o => simp [stmtUnsupportedBinding] at hs
  | .If t b o => simp [stmtUnsupportedBinding] at hs
  | .Import n => simp [stmtUnsupportedBinding] at hs
  | .Expr v => simp [stmtUnsupportedBinding] at hs
  | .Return v => simp [stmtUnsupportedBinding] at hs

/-- A statement list holding an unsupported binding shape makes
`rec_gather_scope` fail with an unsupported-construct error. -/
theorem rec_scope_unsupported (stmts : List Statement) (is_class : Bool) :
    ∀ scope s, s ∈ stmts → stmtUnsupportedBinding s = true →
      ∃ msg, rec_gather_scope scope stmts is_class =
        .error (.Unsupported msg) := by
  induction stmts with
  | nil =>
    intro scope s hmem
    cases hmem
  | cons s0 rest ih =>
    intro scope s hmem hs
    rcases List.mem_cons.mp hmem with heq | hmem2
    · subst heq
      cases hres : rec_gather_scope_stmt scope s is_class with
      | ok s2 =>
        exact absurd hres (rec_scope_stmt_unsupported s hs scope is_class s2)
      | error e =>
        obtain ⟨msg, hmsg⟩ := rec_scope_stmt_err s scope is_class e hres
        exact ⟨msg, by simp only [rec_gather_scope, hres, hmsg]⟩
    · cases hres : rec_gather_scope_stmt scope s0 is_class with
      | ok s2 =>
        obtain ⟨msg, hmsg⟩ := ih s2 s hmem2 hs
        refine ⟨msg, ?_⟩
        simp only [rec_gather_scope, hres]
        exact hmsg
      | error e =>
        obtain ⟨msg, hmsg⟩ := rec_scope_stmt_err s0 scope is_class e hres
        exact ⟨msg, by simp only [rec_gather_scope, hres, hmsg]⟩

/-- C6: a statement list containing an assignment with a (possibly
tuple-nested) list-shaped target, or an import-from statement, makes
`gather_scope` fail with an unsupported-construct error rather than
silently ignoring the construct or succeeding. -/
theorem c6_unsupported_binding_fails (stmts : List Statement)
    (start_ndx : Nat) (is_class : Bool)
    (h : ∃ s ∈ stmts, stmtUnsupportedBinding s = true) :
    ∃ msg, gather_scope stmts start_ndx is_class =
      .error (.Unsupported msg) := by
  obtain ⟨s, hmem, hs⟩ := h
  obtain ⟨msg, hmsg⟩ := rec_scope_unsupported stmts is_class [] s hmem hs
  exact ⟨msg, by simp only [gather_scope, hmsg]⟩

/-- Witness for C6 at a list-target assignment and at an import-from
statement. -/
theorem c6_witness :
    (∃ msg, gather_scope [.Assign [.List []] (.Num 0)] 0 false =
      .error (.Unsupported msg)) ∧
    ∃ msg, gather_scope [.While (.Num 1) [] [], .ImportFrom] 2 true =
      .error (.Unsupported msg) :=
  ⟨c6_unsupported_binding_fails _ 0 false
    ⟨.Assign [.List []] (.Num 0), List.mem_cons_self _ _, rfl⟩,
   c6_unsupported_binding_fails _ 2 true
    ⟨.ImportFrom, List.mem_cons_of_mem _ (List.mem_cons_self _ _), rfl⟩⟩

/-! ### C2 -/

theorem mem_insertNew (s : List String) (x k : String) :
    k ∈ insertNew s x ↔ k ∈ s ∨ k = x := by
  simp only [insertNew]
  split
  · rename_i hx
    constructor
    · exact Or.inl
    · rintro (hk | rfl)
      · exact hk
      · exact hx
  · simp [List.mem_append]

theorem nodup_insertNew (s : List String) (x : String) (h : s.Nodup) :
    (insertNew s x).Nodup := by
  simp only [insertNew]
  split
  · exact h
  · rename_i hx
    simp [List.nodup_append, h, hx]

theorem gather_import_mem (names : List Alias) :
    ∀ scope k, k ∈ gather_import_names scope names ↔
      k ∈ scope ∨ k ∈ specImportIds names := by
  induction names with
  | nil =>
    intro scope k
    simp [gather_import_names, specImportIds]
  | cons a rest ih =>
    obtain ⟨name, asname⟩ := a
    intro scope k
    simp only [gather_import_names, specImportIds, ih, mem_insertNew,
      List.mem_cons]
    tauto

theorem gather_import_nodup (names : List Alias) :
    ∀ scope, scope.Nodup → (gather_import_names scope names).Nodup := by
  induction names with
  | nil =>
    intro scope h
    exact h
  | cons a rest ih =>
    obtain ⟨name, asname⟩ := a
    intro scope h
    exact ih _ (nodup_insertNew _ _ h)

mutual

/-- On success, `unpack_assign_targets` binds exactly the recursively
unpacked leaf names of the target on top of the incoming scope, and
preserves duplicate-freedom. -/
theorem unpack_targets_mem (target : Expression) (scope out : List String)
    (h : unpack_assign_targets scope target = .ok out) :
    (∀ k, k ∈ out ↔ k ∈ scope ∨ k ∈ specTargetIds target) ∧
    (scope.Nodup → out.Nodup) := by
  match target with
  | .Name id =>
    simp only [unpack_assign_targets] at h
    injection h with h
    subst h
    refine ⟨fun k => ?_, fun hn => nodup_insertNew _ _ hn⟩
    simp [mem_insertNew, specTargetIds]
  | .List elts =>
    simp only [unpack_assign_targets] at h
    cases h
  | .Tuple elts =>
    simp only [unpack_assign_targets] at h
    have hm := unpack_targets_elts_mem elts scope out h
    exact ⟨fun k => by rw [hm.1 k]; simp [specTargetIds], hm.2⟩
  | .BinOp l op r =>
    simp only [unpack_assign_targets] at h
    injection h with h
    subst h
    exact ⟨fun k => by simp [specTargetIds], id⟩
  | .Num n =>
    simp only [unpack_assign_targets] at h
    injection h with h
    subst h
    exact ⟨fun k => by simp [specTargetIds], id⟩
  | .Attribute v a =>
    simp only [unpack_assign_targets] at h
    injection h with h
    subst h
    exact ⟨fun k => by simp [specTargetIds], id⟩
  | .Subscript v n =>
    simp only [unpack_assign_targets] at h
    injection h with h
    subst h
    exact ⟨fun k => by simp [specTargetIds], id⟩

/-- On success, the target-list fold binds exactly the leaf names of all
targets in order. -/
theorem unpack_targets_elts_mem (elts : List Expression)
    (scope out : List String)
    (h : unpack_assign_targets_elts scope elts = .ok out) :
    (∀ k, k ∈ out ↔ k ∈ scope ∨ k ∈ specTargetIdsList elts) ∧
    (scope.Nodup → out.Nodup) := by
  match elts with
  | [] =>
    simp only [unpack_assign_targets_elts] at h
    injection h with h
    subst h
    exact ⟨fun k => by simp [specTargetIdsList], id⟩
  | t :: rest =>
    simp only [unpack_assign_targets_elts] at h
    split at h
    · rename_i s2 hok
      have h1 := unpack_targets_mem t scope s2 hok
      have h2 := unpack_targets_elts_mem rest s2 out h
      refine ⟨fun k => ?_, fun hn => h2.2 (h1.2 hn)⟩
      simp only [specTargetIdsList, List.mem_append]
      rw [h2.1 k, h1.1 k]
      tauto
    · cases h

end

mutual

/-- On success with `is_class = false`, `rec_gather_scope` collects exactly
the statically discoverable bound identifiers of the statement list on top
of the incoming scope, and preserves duplicate-freedom. -/
theorem rec_scope_mem (stmts : List Statement) (scope out : List String)
    (h : rec_gather_scope scope stmts false = .ok out) :
    (∀ k, k ∈ out ↔ k ∈ scope ∨ k ∈ specBoundIds stmts) ∧
    (scope.Nodup → out.Nodup) := by
  match stmts with
  | [] =>
    simp only [rec_gather_scope] at h
    injection h with h
    subst h
    exact ⟨fun k => by simp [specBoundIds], id⟩
  | s :: rest =>
    simp only [rec_gather_scope] at h
    split at h
    · rename_i s2 hok
      have h1 := rec_scope_stmt_mem s scope s2 hok
      have h2 := rec_scope_mem rest s2 out h
      refine ⟨fun k => ?_, fun hn => h2.2 (h1.2 hn)⟩
      simp only [specBoundIds, List.mem_append]
      rw [h2.1 k, h1.1 k]
      tauto
    · cases h

/-- One non-class scope-gathering statement step binds exactly the
statement's statically discoverable identifiers. -/
theorem rec_scope_stmt_mem (s : Statement) (scope out : List String)
    (h : rec_gather_scope_stmt scope s false = .ok out) :
    (∀ k, k ∈ out ↔ k ∈ scope ∨ k ∈ specStmtBoundIds s) ∧
    (scope.Nodup → out.Nodup) := by
  match s with
  | .FunctionDef name args body =>
    simp only [rec_gather_scope_stmt, Bool.false_and, Bool.false_eq_true,
      if_false] at h
    injection h with h
    subst h
    refine ⟨fun k => ?_, fun hn => nodup_insertNew _ _ hn⟩
    simp [mem_insertNew, specStmtBoundIds]
  | .ClassDef name body =>
    simp only [rec_gather_scope_stmt] at h
    injection h with h
    subst h
    refine ⟨fun k => ?_, fun hn => nodup_insertNew _ _ hn⟩
    simp [mem_insertNew, specStmtBoundIds]
  | .Assign targets v =>
    simp only [rec_gather_scope_stmt] at h
    have hm := unpack_targets_elts_mem targets scope out h
    exact ⟨fun k => by rw [hm.1 k]; simp [specStmtBoundIds], hm.2⟩
  | .For target i body orelse =>
    simp only [rec_gather_scope_stmt] at h
    split at h
    · rename_i s2 hok1
      split at h
      · rename_i s3 hok2
        have h1 := unpack_targets_mem target scope s2 hok1
        have h2 := rec_scope_mem body s2 s3 hok2
        have h3 := rec_scope_mem orelse s3 out h
        refine ⟨fun k => ?_, fun hn => h3.2 (h2.2 (h1.2 hn))⟩
        simp only [specStmtBoundIds, List.mem_append]
        rw [h3.1 k, h2.1 k, h1.1 k]
        tauto
      · cases h
    · cases h
  | .While t body orelse =>
    simp only [rec_gather_scope_stmt] at h
    split at h
    · rename_i s2 hok1
      have h1 := rec_scope_mem body scope s2 hok1
      have h2 := rec_scope_mem orelse s2 out h
      refine ⟨fun k => ?_, fun hn => h2.2 (h1.2 hn)⟩
      simp only [specStmtBoundIds, List.mem_append]
      rw [h2.1 k, h1.1 k]
      tauto
    · cases h
  | .If t body orelse =>
    simp only [rec_gather_scope_stmt] at h
    split at h
    · rename_i s2 hok1
      have h1 := rec_scope_mem body scope s2 hok1
      have h2 := rec_scope_mem orelse s2 out h
      refine ⟨fun k => ?_, fun hn => h2.2 (h1.2 hn)⟩
      simp only [specStmtBoundIds, List.mem_append]
      rw [h2.1 k, h1.1 k]
      tauto
    · cases h
  | .Import names =>
    simp only [rec_gather_scope_stmt] at h
    injection h with h
    subst h
    refine ⟨fun k => ?_, fun hn => gather_import_nodup names scope hn⟩
    simp only [specStmtBoundIds]
    exact gather_import_mem names scope k
  | .ImportFrom =>
    simp only [rec_gather_scope_stmt] at h
    cases h
  | .Expr v =>
    simp only [rec_gather_scope_stmt] at h
    injection h with h
    subst h
    exact ⟨fun k => by simp [specStmtBoundIds], id⟩
  | .Return v =>
    simp only [rec_gather_scope_stmt] at h
    injection h with h
    subst h
    exact ⟨fun k => by simp [specStmtBoundIds], id⟩

end

theorem exists_mem_zip {α β : Type} (l1 : List α) (l2 : List β) (k : α)
    (hk : k ∈ l1) (hlen : l1.length ≤ l2.length) :
    ∃ v, (k, v) ∈ l1.zip l2 := by
  induction l1 generalizing l2 with
  | nil => cases hk
  | cons a rest ih =>
    cases l2 with
    | nil => simp at hlen
    | cons b rest2 =>
      rcases List.mem_cons.mp hk with rfl | hk2
      · exact ⟨b, List.mem_cons_self _ _⟩
      · obtain ⟨v, hv⟩ := ih rest2 hk2 (Nat.le_of_succ_le_succ hlen)
        exact ⟨v, List.mem_cons_of_mem _ hv⟩

/-- C2: on success with `is_class = false`, `gather_scope` returns a
bijection between the statically discoverable bound identifiers of the
statement list and the contiguous range `[start, start + count)`: the keys
are exactly that identifier set, they are pairwise distinct, and the slot
indices are exactly the range in order — no gaps, no reuse. -/
theorem c2_gather_scope_bijection (stmts : List Statement) (start_ndx : Nat)
    (m : List (String × Nat))
    (h : gather_scope stmts start_ndx false = .ok m) :
    (∀ k, (∃ v, (k, v) ∈ m) ↔ k ∈ specBoundIds stmts) ∧
    (m.map Prod.fst).Nodup ∧
    m.map Prod.snd = List.range' start_ndx m.length := by
  simp only [gather_scope] at h
  split at h
  · rename_i set hset
    injection h with h
    subst h
    have hm := rec_scope_mem stmts [] set hset
    have hlen : set.length ≤ (List.range' start_ndx set.length).length := by
      simp
    have hfst : (set.zip (List.range' start_ndx set.length)).map Prod.fst
        = set := List.map_fst_zip _ _ hlen
    refine ⟨fun k => ?_, ?_, ?_⟩
    · constructor
      · rintro ⟨v, hv⟩
        exact ((hm.1 k).mp (List.of_mem_zip hv).1).resolve_left (by simp)
      · intro hk
        exact exists_mem_zip set _ k ((hm.1 k).mpr (Or.inr hk)) hlen
    · rw [hfst]
      exact hm.2 List.nodup_nil
    · have hlen2 : (set.zip (List.range' start_ndx set.length)).length
          = set.length := by simp
      rw [hlen2]
      exact List.map_snd_zip _ _ (by simp)
  · cases h

/-- Witness for C2 at a body binding tuple targets, an import alias, and a
class name, starting at slot 5. -/
theorem c2_witness :
    (∀ k, (∃ v, (k, v) ∈ ([("a", 5), ("b", 6), ("mm", 7), ("C", 8)] :
        List (String × Nat))) ↔
      k ∈ specBoundIds [.Assign [.Tuple [.Name "a", .Name "b"]] (.Num 0),
        .Import [.Alias "m" (some "mm")], .ClassDef "C" []]) ∧
    (([("a", 5), ("b", 6), ("mm", 7), ("C", 8)] :
      List (String × Nat)).map Prod.fst).Nodup ∧
    ([("a", 5), ("b", 6), ("mm", 7), ("C", 8)] :
      List (String × Nat)).map Prod.snd =
      List.range' 5 ([("a", 5), ("b", 6), ("mm", 7), ("C", 8)] :
        List (String × Nat)).length :=
  c2_gather_scope_bijection
    [.Assign [.Tuple [.Name "a", .Name "b"]] (.Num 0),
     .Import [.Alias "m" (some "mm")], .ClassDef "C" []] 5
    [("a", 5), ("b", 6), ("mm", 7), ("C", 8)] rfl

/-! ### C5 -/

mutual

/-- On success, `unpack_assign_alias` binds exactly the attribute names
assigned through the alias in the target, on top of the incoming scope,
and preserves duplicate-freedom. -/
theorem unpack_alias_mem (target : Expression) (scope out : List String)
    (als : String) (h : unpack_assign_alias scope target als = .ok out) :
    (∀ k, k ∈ out ↔ k ∈ scope ∨ k ∈ specAliasTargetAttrs target als) ∧
    (scope.Nodup → out.Nodup) := by
  match target with
  | .Attribute value attr =>
    simp only [unpack_assign_alias] at h
    split at h
    · rename_i nid
      split at h
      · rename_i hid
        injection h with h
        subst h
        refine ⟨fun k => ?_, fun hn => nodup_insertNew _ _ hn⟩
        simp [mem_insertNew, specAliasTargetAttrs, hid]
      · rename_i hid
        injection h with h
        subst h
        refine ⟨fun k => ?_, fun hn => hn⟩
        simp [specAliasTargetAttrs, hid]
    · rename_i hnotname
      injection h with h
      subst h
      refine ⟨fun k => ?_, fun hn => hn⟩
      match value with
      | .Name nid => exact absurd rfl (hnotname nid)
      | .BinOp l op r => simp [specAliasTargetAttrs]
      | .Num n => simp [specAliasTargetAttrs]
      | .Attribute v a => simp [specAliasTargetAttrs]
      | .Subscript v n => simp [specAliasTargetAttrs]
      | .List elts => simp [specAliasTargetAttrs]
      | .Tuple elts => simp [specAliasTargetAttrs]
  | .List elts =>
    simp only [unpack_assign_alias] at h
    cases h
  | .Tuple elts =>
    simp only [unpack_assign_alias] at h
    have hm := unpack_alias_elts_mem elts scope out als h
    exact ⟨fun k => by rw [hm.1 k]; simp [specAliasTargetAttrs], hm.2⟩
  | .BinOp l op r =>
    simp only [unpack_assign_alias] at h
    injection h with h
    subst h
    exact ⟨fun k => by simp [specAliasTargetAttrs], id⟩
  | .Num n =>
    simp only [unpack_assign_alias] at h
    injection h with h
    subst h
    exact ⟨fun k => by simp [specAliasTargetAttrs], id⟩
  | .Name nid =>
    simp only [unpack_assign_alias] at h
    injection h with h
    subst h
    exact ⟨fun k => by simp [specAliasTargetAttrs], fun hn => hn⟩
  | .Subscript v n =>
    simp only [unpack_assign_alias] at h
    injection h with h
    subst h
    exact ⟨fun k => by simp [specAliasTargetAttrs], id⟩

/-- On success, the alias target-list fold binds exactly the alias-assigned
attribute names of all targets. -/
theorem unpack_alias_elts_mem (elts : List Expression)
    (scope out : List String) (als : String)
    (h : unpack_assign_alias_elts scope elts als = .ok out) :
    (∀ k, k ∈ out ↔ k ∈ scope ∨ k ∈ specAliasTargetAttrsList elts als) ∧
    (scope.Nodup → out.Nodup) := by
  match elts with
  | [] =>
    simp only [unpack_assign_alias_elts] at h
    injection h with h
    subst h
    exact ⟨fun k => by simp [specAliasTargetAttrsList], id⟩
  | t :: rest =>
    simp only [unpack_assign_alias_elts] at h
    split at h
    · rename_i s2 hok
      have h1 := unpack_alias_mem t scope s2 als hok
      have h2 := unpack_alias_elts_mem rest s2 out als h
      refine ⟨fun k => ?_, fun hn => h2.2 (h1.2 hn)⟩
      simp only [specAliasTargetAttrsList, List.mem_append]
      rw [h2.1 k, h1.1 k]
      tauto
    · cases h

end

mutual

/-- On success, `rec_gather_class_init` binds exactly the attribute names
the statement list assigns through the self alias. -/
theorem rec_class_init_mem (stmts : List Statement) (scope out : List String)
    (sa : String) (h : rec_gather_class_init scope stmts sa = .ok out) :
    (∀ k, k ∈ out ↔ k ∈ scope ∨ k ∈ specAliasAttrs stmts sa) ∧
    (scope.Nodup → out.Nodup) := by
  match stmts with
  | [] =>
    simp only [rec_gather_class_init] at h
    injection h with h
    subst h
    exact ⟨fun k => by simp [specAliasAttrs], id⟩
  | s :: rest =>
    simp only [rec_gather_class_init] at h
    split at h
    · rename_i s2 hok
      have h1 := rec_class_init_stmt_mem s scope s2 sa hok
      have h2 := rec_class_init_mem rest s2 out sa h
      refine ⟨fun k => ?_, fun hn => h2.2 (h1.2 hn)⟩
      simp only [specAliasAttrs, List.mem_append]
      rw [h2.1 k, h1.1 k]
      tauto
    · cases h

/-- One class-init statement step binds exactly the statement's
alias-assigned attribute names. -/
theorem rec_class_init_stmt_mem (s : Statement) (scope out : List String)
    (sa : String) (h : rec_gather_class_init_stmt scope s sa = .ok out) :
    (∀ k, k ∈ out ↔ k ∈ scope ∨ k ∈ specAliasStmtAttrs s sa) ∧
    (scope.Nodup → out.Nodup) := by
  match s with
  | .Assign targets v =>
    simp only [rec_gather_class_init_stmt] at h
    have hm := unpack_alias_elts_mem targets scope out sa h
    exact ⟨fun k => by rw [hm.1 k]; simp [specAliasStmtAttrs], hm.2⟩
  | .For t i body orelse =>
    simp only [rec_gather_class_init_stmt] at h
    split at h
    · rename_i s2 hok
      have h1 := rec_class_init_mem body scope s2 sa hok
      have h2 := rec_class_init_mem orelse s2 out sa h
      refine ⟨fun k => ?_, fun hn => h2.2 (h1.2 hn)⟩
      simp only [specAliasStmtAttrs, List.mem_append]
      rw [h2.1 k, h1.1 k]
      tauto
    · cases h
  | .While t body orelse =>
    simp only [rec_gather_class_init_stmt] at h
    split at h
    · rename_i s2 hok
      have h1 := rec_class_init_mem body scope s2 sa hok
      have h2 := rec_class_init_mem orelse s2 out sa h
      refine ⟨fun k => ?_, fun hn => h2.2 (h1.2 hn)⟩
      simp only [specAliasStmtAttrs, List.mem_append]
      rw [h2.1 k, h1.1 k]
      tauto
    · cases h
  | .If t body orelse =>
    simp only [rec_gather_class_init_stmt] at h
    split at h
    · rename_i s2 hok
      have h1 := rec_class_init_mem body scope s2 sa hok
      have h2 := rec_class_init_mem orelse s2 out sa h
      refine ⟨fun k => ?_, fun hn => h2.2 (h1.2 hn)⟩
      simp only [specAliasStmtAttrs, List.mem_append]
      rw [h2.1 k, h1.1 k]
      tauto
    · cases h
  | .FunctionDef n a b =>
    simp only [rec_gather_class_init_stmt] at h
    injection h with h
    subst h
    exact ⟨fun k => by simp [specAliasStmtAttrs], id⟩
  | .ClassDef n b =>
    simp only [rec_gather_class_init_stmt] at h
    injection h with h
    subst h
    exact ⟨fun k => by simp [specAliasStmtAttrs], id⟩
  | .Import n =>
    simp only [rec_gather_class_init_stmt] at h
    injection h with h
    subst h
    exact ⟨fun k => by simp [specAliasStmtAttrs], id⟩
  | .ImportFrom =>
    simp only [rec_gather_class_init_stmt] at h
    injection h with h
    subst h
    exact ⟨fun k => by simp [specAliasStmtAttrs], id⟩
  | .Expr v =>
    simp only [rec_gather_class_init_stmt] at h
    injection h with h
    subst h
    exact ⟨fun k => by simp [specAliasStmtAttrs], id⟩
  | .Return v =>
    simp only [rec_gather_class_init_stmt] at h
    injection h with h
    subst h
    exact ⟨fun k => by simp [specAliasStmtAttrs], id⟩

end

/-- C5: for a method literally named `__init__` whose first parameter is
the self alias, `gather_class_init` binds into the enclosing scope exactly
the attribute names assigned through that alias in the method body
(recursing through `for`/`while`/`if` bodies and else-branches); if the
parameter list is empty, gathering is skipped and succeeds binding
nothing; and on the concrete method `__init__(self, y)` with body
`self.a = y; self.b = 1` exactly `{"a", "b"}` is bound — neither `"y"` nor
`"self"`. -/
theorem c5_class_init_attrs :
    (∀ (sa : String) (rest : List Arg) (v : Option String) (ko : List Arg)
        (kd : List Expression) (kw : Option String) (d : List Expression)
        (body : List Statement) (scope out : List String),
      gather_class_init scope (.FunctionDef "__init__"
        (.Arguments (.Arg sa :: rest) v ko kd kw d) body) = .ok out →
      ∀ k, k ∈ out ↔ k ∈ scope ∨ k ∈ specAliasAttrs body sa) ∧
    (∀ (v : Option String) (ko : List Arg) (kd : List Expression)
        (kw : Option String) (d : List Expression) (body : List Statement)
        (scope : List String),
      gather_class_init scope (.FunctionDef "__init__"
        (.Arguments [] v ko kd kw d) body) = .ok scope) ∧
    gather_class_init [] (.FunctionDef "__init__"
      (.Arguments [.Arg "self", .Arg "y"] none [] [] none [])
      [.Assign [.Attribute (.Name "self") "a"] (.Name "y"),
       .Assign [.Attribute (.Name "self") "b"] (.Num 1)]) = .ok ["a", "b"] := by
  refine ⟨?_, fun v ko kd kw d body scope => rfl, rfl⟩
  intro sa rest v ko kd kw d body scope out h
  have h2 : rec_gather_class_init scope body sa = .ok out := h
  exact (rec_class_init_mem body scope out sa h2).1

/-- Witness for C5 at `__init__(self, y)` with body
`self.a = y; self.b = 1`. -/
theorem c5_witness :
    ∀ k, k ∈ ["a", "b"] ↔ k ∈ ([] : List String) ∨
      k ∈ specAliasAttrs
        [.Assign [.Attribute (.Name "self") "a"] (.Name "y"),
         .Assign [.Attribute (.Name "self") "b"] (.Num 1)] "self" :=
  c5_class_init_attrs.1 "self" [.Arg "y"] none [] [] none []
    [.Assign [.Attribute (.Name "self") "a"] (.Name "y"),
     .Assign [.Attribute (.Name "self") "b"] (.Num 1)] [] ["a", "b"] rfl

end Cannoli
